import Mathlib

/-!
# Verification of the SaveTheMars Firebase dashboard data layer

Shallow embedding of `savethemars_firebase_dashboard.py`: the platform
normalizer, the timestamp formatter, the Firebase query/fetch functions and
the enrichment (join) stage, together with theorems settling the spec claims.

Modelling conventions:

* Firebase JSON values are modelled by `JVal` (null / number / string /
  object).  Numbers are modelled as `Int`; no claim depends on fractional
  values.  Booleans do not occur in the data handled by the claims and are
  omitted.
* Python dicts are modelled as association lists (`PyDict`) whose keys are
  unique; dict-literal merging (`{**a, **b}`, later keys override earlier
  ones, update-in-place keeps the position of an existing key) is modelled by
  `pyUpdate` / `pyInsert`.
* A Firebase snapshot (`PLAYERS`, `CONVERSIONS`, `IAP`) is a list of
  `(key, value)` entries, assumed to be listed in Firebase key order.
* The firebase_admin Python SDK returns query results as an `OrderedDict`
  sorted ascending by the `order_by_child` criterion (nulls first, then
  numbers, then strings, then objects, ties by key); `orderByChild`,
  `filterChildEqStr` and `limitToLast` model `order_by_child`, `equal_to`
  and `limit_to_last`.
* Uncaught Python exceptions are modelled by `Except Unit` / `Option.none`
  at the point where the corresponding `try` block (or the caller) observes
  them.  `list.sort(key=lambda x: x.get(f, 0), reverse=True)` raises
  `TypeError` when a present non-numeric timestamp is compared with a
  number; `sortDescByE` models this conservatively by failing whenever some
  record has a present non-numeric timestamp field (Python would still sort
  a list whose timestamps are all strings; that corner is outside every
  hypothesis used below).
-/

/-- A Firebase/JSON value as seen by the Python code. -/
inductive JVal where
  | null
  | num (n : Int)
  | str (s : String)
  | dict (fields : List (String × JVal))

/-- A Python dict with string keys, as an association list. -/
abbrev PyDict := List (String × JVal)

/-- Python dict assignment `d[k] = v`: replaces the value in place if the key
exists (keeping its position), otherwise appends the new key at the end. -/
def pyInsert : PyDict → String → JVal → PyDict
  | [], k, v => [(k, v)]
  | (k', w) :: d, k, v => if k' = k then (k, v) :: d else (k', w) :: pyInsert d k v

/-- Python dict merge `{**a, **b}`: start from `a` and assign every entry of
`b` in order (later keys override earlier ones). -/
def pyUpdate (a b : PyDict) : PyDict :=
  b.foldl (fun d p => pyInsert d p.1 p.2) a

/-- ASCII lower-casing of one character, as Python `str.lower` acts on the
platform tags occurring here. -/
def pyLowerChar (c : Char) : Char :=
  if 65 ≤ c.toNat && c.toNat ≤ 90 then Char.ofNat (c.toNat + 32) else c

/-- Python `str.lower` (ASCII fragment; the literals compared against are
ASCII). -/
def pyLower (s : String) : String := String.mk (s.data.map pyLowerChar)

/-- `normalize_platform` (dashboard lines 71-87) on a value that is either
absent/`None` (`none`) or a string.  `not platform_value` is true for `None`
and for the empty string; `platform_value.lower() == "ios"` selects iOS;
everything else defaults to Android. -/
def normalize_platform : Option String → String
  | none => "Android"
  | some s => if s = "" then "Android" else if pyLower s = "ios" then "iOS" else "Android"

/-- `normalize_platform` applied to a raw Firebase value
(`record.get("Platform")`).  `None`, JSON null, the number 0 and the empty
dict are falsy and give `"Android"`; a string goes through
`normalize_platform`; calling `.lower()` on any other (truthy, non-string)
value raises `AttributeError`, modelled by `.error`. -/
def normalize_platform_val : Option JVal → Except Unit String
  | none => .ok "Android"
  | some .null => .ok "Android"
  | some (.str s) => .ok (normalize_platform (some s))
  | some (.num n) => if n = 0 then .ok "Android" else .error ()
  | some (.dict d) => if d.isEmpty then .ok "Android" else .error ()

/-! ## Timestamp formatting (dashboard lines 89-99)

`datetime` can represent calendar times from 0001-01-01 00:00:00 to
9999-12-31 23:59:59(.999999); we model a `datetime` by its signed count of
seconds since the Unix epoch (the process timezone is modelled as UTC, the
deployment setting; the spec describes the output relative to UTC).
`datetime.fromtimestamp` raises `ValueError` outside that range, and
`datetime + timedelta` raises `OverflowError` when the result leaves the
range (CPython documents both). -/

/-- Seconds-since-epoch of 0001-01-01 00:00:00, the smallest `datetime`. -/
def SECS_MIN : Int := -62135596800

/-- Seconds-since-epoch of 9999-12-31 23:59:59, the largest whole second a
`datetime` can hold. -/
def SECS_MAX : Int := 253402300799

/-- `datetime.fromtimestamp(ms/1000)` reduced to whole seconds (the
sub-second part never reaches the `%H:%M:%S %Y-%m-%d` output).  Fails
(`ValueError`, caught by the dashboard) outside the representable range.
`Int.fdiv` is floor division: `ms/1000` is Python true division and
`fromtimestamp` places the instant at that real number of seconds. -/
def fromtimestampSecs (ms : Int) : Option Int :=
  let s := Int.fdiv ms 1000
  if SECS_MIN ≤ s ∧ s ≤ SECS_MAX then some s else none

/-- `dt + timedelta(hours=5)`: raises `OverflowError` (not `ValueError` or
`TypeError`!) when the shifted instant leaves the `datetime` range. -/
def addFiveHours (s : Int) : Option Int :=
  if SECS_MIN ≤ s + 18000 ∧ s + 18000 ≤ SECS_MAX then some (s + 18000) else none

/-- Civil date from a count of days since 1970-01-01 (proleptic Gregorian,
Hinnant's `civil_from_days`): returns (year, month, day). -/
def civilFromDays (z : Int) : Int × Nat × Nat :=
  let z' := z + 719468
  let era := Int.fdiv z' 146097
  let doe := (Int.fmod z' 146097).toNat
  let yoe := (doe - doe / 1460 + doe / 36524 - doe / 146096) / 365
  let doy := doe - (365 * yoe + yoe / 4 - yoe / 100)
  let mp := (5 * doy + 2) / 153
  let d := doy - (153 * mp + 2) / 5 + 1
  let m := if mp < 10 then mp + 3 else mp - 9
  (era * 400 + yoe + (if m ≤ 2 then 1 else 0), m, d)

/-- Zero-pad a number below 100 to two digits (`%H`, `%M`, `%S`, `%m`, `%d`). -/
def pad2 (n : Nat) : String :=
  if n < 10 then "0" ++ toString n else toString n

/-- Four-digit year field (`%Y`; zero-padding chosen as the canonical model
of the platform-dependent behaviour for years below 1000). -/
def pad4 (y : Int) : String :=
  if y < 10 then "000" ++ toString y
  else if y < 100 then "00" ++ toString y
  else if y < 1000 then "0" ++ toString y
  else toString y

/-- `dt.strftime('%H:%M:%S %Y-%m-%d')` of the instant `s` seconds after the
epoch. -/
def strftimeHMSYMD (s : Int) : String :=
  let sod := (Int.fmod s 86400).toNat
  let ymd := civilFromDays (Int.fdiv s 86400)
  pad2 (sod / 3600) ++ ":" ++ pad2 (sod % 3600 / 60) ++ ":" ++ pad2 (sod % 60) ++
    " " ++ pad4 ymd.1 ++ "-" ++ pad2 ymd.2.1 ++ "-" ++ pad2 ymd.2.2

/-- The argument of `format_timestamp`: missing (`None`/NaN, for which
`pd.notna` is false), a number (epoch milliseconds), or a string. -/
inductive TSInput where
  | missing
  | num (n : Int)
  | str (s : String)

/-- `format_timestamp` (dashboard lines 89-99).  `some` is a returned display
string; `none` models an uncaught exception escaping the function: the
`except` clause catches only `ValueError` and `TypeError`, so the
`OverflowError` raised by `dt + timedelta(hours=5)` near the top of the
`datetime` range propagates.  A string argument passes the
`pd.notna(timestamp) and timestamp != 0` test and then raises `TypeError` at
`timestamp/1000`, which is caught. -/
def format_timestamp : TSInput → Option String
  | .missing => some "Not available"
  | .str _ => some "Invalid date"
  | .num n =>
    if n = 0 then some "Not available"
    else
      match fromtimestampSecs n with
      | none => some "Invalid date"
      | some dt =>
        match addFiveHours dt with
        | none => none
        | some dt5 => some (strftimeHMSYMD dt5)

/-! ## The Firebase store and query model -/

/-- The snapshot of the realtime database the dashboard reads: the three
top-level collections, each a list of `(key, value)` entries in Firebase key
order. -/
structure Store where
  players : List (String × JVal)
  conversions : List (String × JVal)
  iap : List (String × JVal)

/-- The child value used by `order_by_child(k)` / `equal_to`: the field `k`
of an object entry; non-object entries have no children (null). -/
def childVal (v : JVal) (k : String) : Option JVal :=
  match v with
  | .dict r => List.lookup k r
  | _ => none

/-- Lexicographic comparison of strings by code points (Firebase's string
ordering), written so that it evaluates in the kernel. -/
def strLeChars : List Char → List Char → Bool
  | [], _ => true
  | _ :: _, [] => false
  | a :: as, b :: bs =>
    if a.toNat < b.toNat then true
    else if b.toNat < a.toNat then false
    else strLeChars as bs

/-- Type rank of a child value in Firebase ordering: null/absent, then
numbers, then strings, then objects. -/
def fbRank : Option JVal → Nat
  | none => 0
  | some .null => 0
  | some (.num _) => 1
  | some (.str _) => 2
  | some (.dict _) => 3

/-- Firebase child-value ordering (without the key tie-break; ties are left
in snapshot order, which is key order, by a stable sort). -/
def fbLe (a b : Option JVal) : Bool :=
  match a, b with
  | some (.num x), some (.num y) => x ≤ y
  | some (.str x), some (.str y) => strLeChars x.data y.data
  | _, _ => fbRank a ≤ fbRank b

/-- `ref.order_by_child(k)`: the SDK returns the entries sorted ascending by
the child value, ties in key order (stable sort of a key-ordered snapshot). -/
def orderByChild (entries : List (String × JVal)) (k : String) : List (String × JVal) :=
  List.insertionSort (fun e1 e2 => fbLe (childVal e1.2 k) (childVal e2.2 k) = true) entries

/-- `.equal_to(s)` under `order_by_child(k)`: keeps the entries whose child
`k` is exactly the string `s` (an absent child is null and never equals a
string). -/
def filterChildEqStr (entries : List (String × JVal)) (k : String) (s : String) :
    List (String × JVal) :=
  entries.filter (fun e =>
    match childVal e.2 k with
    | some (.str t) => t = s
    | _ => false)

/-- `.limit_to_last(m)`: the last `m` entries in query order. -/
def limitToLast (l : List (String × JVal)) (m : Nat) : List (String × JVal) :=
  l.drop (l.length - m)

/-- The sort key `x.get(field, 0)` of the local sorts, on records whose
timestamp field is numeric or absent. -/
def timeOf (field : String) (r : PyDict) : Int :=
  match List.lookup field r with
  | some (.num n) => n
  | _ => 0

/-- Does every record have a numeric-or-absent `field`?  When false, Python's
sort key comparison raises `TypeError` (see the module comment). -/
def timesOk (field : String) (l : List PyDict) : Bool :=
  l.all (fun r =>
    match List.lookup field r with
    | none => true
    | some (.num _) => true
    | some _ => false)

/-- `sorted(l, key=lambda x: x.get(field, 0), reverse=True)` /
`l.sort(key=..., reverse=True)`: a stable descending sort by the numeric
timestamp; `TypeError` (modelled per `timesOk`) is reported as `.error` to
the enclosing `try`. -/
def sortDescByE (field : String) (l : List PyDict) : Except Unit (List PyDict) :=
  if timesOk field l then
    .ok (List.insertionSort (fun a b => timeOf field b ≤ timeOf field a) l)
  else
    .error ()

/-! ## The fetch functions -/

/-- The record built for one store entry:
`player_record = {"uid": uid, **record}` followed by
`player_record["Platform"] = p`. -/
def buildRec (uid : String) (r : PyDict) (p : String) : PyDict :=
  pyInsert (pyUpdate [("uid", JVal.str uid)] r) "Platform" (JVal.str p)

/-- One iteration of the loop shared by all four player fetchers
(e.g. lines 120-124): skip non-dict records, build
`{"uid": uid, **record}` and assign the normalized platform, raising
whatever `normalize_platform` raises. -/
def buildPlayers : List (String × JVal) → Except Unit (List PyDict)
  | [] => .ok []
  | (uid, .dict r) :: rest =>
    match normalize_platform_val (List.lookup "Platform" r) with
    | .error _ => .error ()
    | .ok p =>
      match buildPlayers rest with
      | .error _ => .error ()
      | .ok l => .ok (buildRec uid r p :: l)
  | _ :: rest => buildPlayers rest

/-- `fetch_latest_players` (lines 172-192): `order_by_child("Install_time")
.limit_to_last(limit)`, then the build loop; the SDK hands the entries back
ascending by `Install_time`, and no local sort happens.  Any exception is
caught and turned into `[]`. -/
def fetch_latest_players (st : Store) (limit : Nat) : List PyDict :=
  match buildPlayers (limitToLast (orderByChild st.players "Install_time") limit) with
  | .ok l => l
  | .error _ => []

/-- The common body of `fetch_latest_android_players` /
`fetch_latest_ios_players` / `fetch_players_by_source`: filter at the store
on a raw child equality, take the last `limit * mult` such entries, build,
sort descending by `Install_time`, truncate. -/
def fetchPlayersFiltered (st : Store) (key litval : String) (limit mult : Nat) :
    List PyDict :=
  let data := limitToLast
    (orderByChild (filterChildEqStr st.players key litval) key) (limit * mult)
  match buildPlayers data with
  | .error _ => []
  | .ok l =>
    match sortDescByE "Install_time" l with
    | .error _ => []
    | .ok sorted => sorted.take limit

/-- `fetch_latest_android_players` (lines 103-135):
`order_by_child("Platform").equal_to("").limit_to_last(limit * 2)`. -/
def fetch_latest_android_players (st : Store) (limit : Nat) : List PyDict :=
  fetchPlayersFiltered st "Platform" "" limit 2

/-- `fetch_latest_ios_players` (lines 137-169):
`order_by_child("Platform").equal_to("ios").limit_to_last(limit * 2)`. -/
def fetch_latest_ios_players (st : Store) (limit : Nat) : List PyDict :=
  fetchPlayersFiltered st "Platform" "ios" limit 2

/-- `fetch_players_by_source` (lines 385-414):
`order_by_child("Source").equal_to(source_value).limit_to_last(limit * 2)`. -/
def fetch_players_by_source (st : Store) (source_value : String) (limit : Nat) :
    List PyDict :=
  fetchPlayersFiltered st "Source" source_value limit 2

/-- `fetch_player` (lines 195-206): point read of `PLAYERS/{uid}`; a non-dict
or missing value gives `None`, and the `AttributeError` that
`normalize_platform` raises on a truthy non-string platform tag is caught by
`except Exception`, also giving `None`. -/
def fetch_player (st : Store) (uid : String) : Option PyDict :=
  match List.lookup uid st.players with
  | some (.dict r) =>
    match normalize_platform_val (List.lookup "Platform" r) with
    | .ok p => some (pyInsert r "Platform" (.str p))
    | .error _ => none
  | _ => none

/-- The flattening of one owner's sub-collection (inner loop of lines
233-243 / 317-327): each dict leaf becomes
`{"user_id": u, tagKey: leafKey, **leaf}`; non-dict leaves are skipped. -/
def flattenOwner (tagKey : String) (u : String) : List (String × JVal) → List PyDict
  | [] => []
  | (c, .dict d) :: rest =>
    pyUpdate [("user_id", .str u), (tagKey, .str c)] d :: flattenOwner tagKey u rest
  | _ :: rest => flattenOwner tagKey u rest

/-- The two-level flattening (outer loop of lines 229-243 / 313-327):
non-dict owner entries are skipped. -/
def flattenNested (tagKey : String) : List (String × JVal) → List PyDict
  | [] => []
  | (u, .dict ud) :: rest => flattenOwner tagKey u ud ++ flattenNested tagKey rest
  | _ :: rest => flattenNested tagKey rest

/-- The record `{"user_id": u, tagKey: c, **d}` produced for the leaf
`(c, dict d)` of owner `u`. -/
def mkEvent (tagKey : String) (u c : String) (d : List (String × JVal)) : PyDict :=
  pyUpdate [("user_id", .str u), (tagKey, .str c)] d

/-- The nine prefixed player fields merged into an event record when the
owning player is found (lines 265-275 / 357-367). -/
def player_fields (p : PyDict) : PyDict :=
  [("player_geo", (List.lookup "Geo" p).getD (.str "")),
   ("player_source", (List.lookup "Source" p).getD (.str "")),
   ("player_platform", (List.lookup "Platform" p).getD (.str "Android")),
   ("player_ip", (List.lookup "IP" p).getD (.str "")),
   ("player_wins", (List.lookup "Wins" p).getD (.num 0)),
   ("player_impressions", (List.lookup "Impressions" p).getD (.num 0)),
   ("player_ad_revenue", (List.lookup "Ad_Revenue" p).getD (.num 0)),
   ("player_install_time", (List.lookup "Install_time" p).getD (.num 0)),
   ("player_last_impression_time", (List.lookup "Last_Impression_time" p).getD (.num 0))]

/-- The keys of `player_fields`. -/
def playerFieldKeys : List String :=
  ["player_geo", "player_source", "player_platform", "player_ip", "player_wins",
   "player_impressions", "player_ad_revenue", "player_install_time",
   "player_last_impression_time"]

/-- `event.get("user_id")` as the player key of the point lookup.  A missing
or non-string value yields a path (`PLAYERS/None` etc.) that reads no player
record; this is modelled as a failed lookup. -/
def eventUserId (r : PyDict) : Option String :=
  match List.lookup "user_id" r with
  | some (.str u) => some u
  | _ => none

/-- One iteration of the enrichment loops (lines 256-282 / 348-374): look up
the owning player; if found, `{**event, **player_fields}`, otherwise the
event unchanged. -/
def enrichEvent (st : Store) (r : PyDict) : PyDict :=
  match eventUserId r with
  | none => r
  | some u =>
    match fetch_player st u with
    | none => r
    | some p => pyUpdate r (player_fields p)

/-- The conversions range query (line 218):
`order_by_child("time").limit_to_last(limit * 3)` on the outer collection. -/
def conversionsQuery (st : Store) (limit : Nat) : List (String × JVal) :=
  limitToLast (orderByChild st.conversions "time") (limit * 3)

/-- Flatten, sort descending by `time`, truncate (lines 226-253); a sort
`TypeError` escapes to the function-level handler, which returns `[]`. -/
def latestConversions (st : Store) (limit : Nat) : List PyDict :=
  match sortDescByE "time" (flattenNested "conversion_id" (conversionsQuery st limit)) with
  | .ok l => l.take limit
  | .error _ => []

/-- `fetch_latest_conversions_with_player_data` (lines 208-290): the latest
conversions, each put through the enrichment loop (one output per input). -/
def fetch_latest_conversions_with_player_data (st : Store) (limit : Nat) : List PyDict :=
  (latestConversions st limit).map (enrichEvent st)

/-- The IAP query (line 303): `limit_to_last(100)` with no ordering, i.e. the
last 100 owner entries in key order. -/
def iapQuery (st : Store) : List (String × JVal) :=
  limitToLast st.iap 100

/-- Flatten, return `[]` on an empty flattened list, sort descending by
`timeBought` with the *inner* `try` (lines 334-342: a sort error keeps the
unsorted list), truncate. -/
def latestIaps (st : Store) (limit : Nat) : List PyDict :=
  let all := flattenNested "purchase_id" (iapQuery st)
  if all.isEmpty then []
  else
    match sortDescByE "timeBought" all with
    | .ok l => l.take limit
    | .error _ => all.take limit

/-- `fetch_latest_iap_with_player_data` (lines 292-382): the latest IAP
records, each put through the (identical) enrichment loop. -/
def fetch_latest_iap_with_player_data (st : Store) (limit : Nat) : List PyDict :=
  (latestIaps st limit).map (enrichEvent st)

/-! ## Derived notions used in the claim statements -/

/-- Last-occurrence lookup: the value Python's dict-merge semantics leaves at
key `k` after inserting the entries of `b` in order. -/
def lookupLast (k : String) (b : PyDict) : Option JVal :=
  List.lookup k b.reverse

/-- The string at key `k` of a record, if the value there is a string. -/
def lookupStr (k : String) (r : PyDict) : Option String :=
  match List.lookup k r with
  | some (.str s) => some s
  | _ => none

/-- The list is in descending order of the numeric timestamp at `field`
(absent read as 0, as in the sort key `x.get(field, 0)`). -/
def DescBy (field : String) (l : List PyDict) : Prop :=
  l.Pairwise (fun a b => timeOf field b ≤ timeOf field a)

/-- The list is in ascending order of the numeric timestamp at `field`. -/
def AscBy (field : String) (l : List PyDict) : Prop :=
  l.Pairwise (fun a b => timeOf field a ≤ timeOf field b)

/-- The record's `Platform` field is one of the two canonical labels. -/
def PlatformCanonical (r : PyDict) : Prop :=
  List.lookup "Platform" r = some (JVal.str "Android") ∨
    List.lookup "Platform" r = some (JVal.str "iOS")

/-- Every object entry of the player collection has unique keys (Python
dicts always do) and a present, numeric `Install_time` (the spec's
well-formedness invariant for players). -/
def PlayersTimed (entries : List (String × JVal)) : Prop :=
  ∀ k r, (k, JVal.dict r) ∈ entries →
    (r.map Prod.fst).Nodup ∧ ∃ n, List.lookup "Install_time" r = some (JVal.num n)

/-- No leaf event record of the nested structure carries a field named like
one of the two tag keys the flattening adds. -/
def NoTagCollision (tagKey : String) (data : List (String × JVal)) : Prop :=
  ∀ u ud c d, (u, JVal.dict ud) ∈ data → (c, JVal.dict d) ∈ ud →
    "user_id" ∉ d.map Prod.fst ∧ tagKey ∉ d.map Prod.fst

/-- Does the flattened record carry exactly the two identifier tags `u`, `c`? -/
def isTagged (tagKey u c : String) (r : PyDict) : Bool :=
  lookupStr "user_id" r == some u && lookupStr tagKey r == some c

/-- The raw platform tag of a stored player record, in the spec's data
model (a string, or absent). -/
def rawPlatformString (r : PyDict) : Option String :=
  match List.lookup "Platform" r with
  | some (.str s) => some s
  | _ => none

/-- Modelled from the spec (claim C2's reference behaviour, not code of the
repository): fetch all players, build the same uid-tagged normalized
records, keep exactly those whose *normalized* platform equals the target
canonical value, sort by install timestamp descending, take `limit`. -/
def playersLocalFilterSpec (st : Store) (target : String) (limit : Nat) : List PyDict :=
  let all : List PyDict := st.players.filterMap (fun e =>
    match e.2 with
    | .dict r => some (buildRec e.1 r (normalize_platform (rawPlatformString r)))
    | _ => none)
  let filtered := all.filter (fun (r : PyDict) =>
    match List.lookup "Platform" r with
    | some (.str p) => p = target
    | _ => false)
  (List.insertionSort (fun a b => timeOf "Install_time" b ≤ timeOf "Install_time" a)
    filtered).take limit

/-! ## Concrete stores for counterexamples and witnesses -/

/-- Two players with installs at times 1 and 2: exposes the ascending order
of `fetch_latest_players`. -/
def cexStoreC1 : Store where
  players := [("a", .dict [("Install_time", .num 1), ("Platform", .str "")]),
              ("b", .dict [("Install_time", .num 2), ("Platform", .str "")])]
  conversions := []
  iap := []

/-- Player "a" has the raw tag `"Android"` (normalizing to Android) and the
latest install; player "b" has the raw tag `""`.  The pushed-down
`equal_to("")` filter only ever sees "b". -/
def cexStoreC2 : Store where
  players := [("a", .dict [("Install_time", .num 100), ("Platform", .str "Android")]),
              ("b", .dict [("Install_time", .num 50), ("Platform", .str "")])]
  conversions := []
  iap := []

/-- A conversion that already carries a `player_geo` field, whose owning
player exists with `Geo = "US"`. -/
def cexStoreC4 : Store where
  players := [("u1", .dict [("Geo", .str "US"), ("Platform", .str "ios"),
                            ("Install_time", .num 1)])]
  conversions := [("u1", .dict [("c1", .dict [("time", .num 5),
                                              ("player_geo", .str "orig")])])]
  iap := []

/-- A leaf conversion record that itself contains a `user_id` field: the
dict merge lets it override the owner tag. -/
def cexNestedC7 : List (String × JVal) :=
  [("u1", .dict [("c1", .dict [("user_id", .str "evil")])])]

/-- A small well-formed store exercising each fetch function: two players
(one iOS, one raw-empty Android), a conversion owned by "u1", a conversion
owned by the nonexistent "u3", and one purchase. -/
def wStore : Store where
  players := [("u1", .dict [("Install_time", .num 100), ("Platform", .str "ios"),
                            ("Geo", .str "US")]),
              ("u2", .dict [("Install_time", .num 200), ("Platform", .str "")])]
  conversions := [("u1", .dict [("c1", .dict [("time", .num 10)])]),
                  ("u3", .dict [("c2", .dict [("time", .num 20)])])]
  iap := [("u1", .dict [("p1", .dict [("timeBought", .num 30)])])]

/-! ## Dictionary lemmas -/

theorem lookup_eq_none_of_not_mem_keys {k : String} {l : PyDict}
    (h : k ∉ l.map Prod.fst) : List.lookup k l = none := by
  induction l with
  | nil => rfl
  | cons p t ih =>
    obtain ⟨a, b⟩ := p
    simp only [List.map_cons, List.mem_cons] at h
    push_neg at h
    have hb : (k == a) = false := beq_eq_false_iff_ne.mpr h.1
    simp [List.lookup, hb, ih h.2]

theorem lookup_pyInsert (d : PyDict) (k' : String) (v : JVal) (k : String) :
    List.lookup k (pyInsert d k' v) = if k = k' then some v else List.lookup k d := by
  induction d with
  | nil =>
    by_cases hk : k = k' <;>
      simp [pyInsert, List.lookup, hk, beq_eq_false_iff_ne.mpr]
  | cons p t ih =>
    obtain ⟨a, b⟩ := p
    by_cases hak : a = k'
    · subst hak
      by_cases hk : k = a
      · simp [pyInsert, List.lookup, hk]
      · have hb : (k == a) = false := beq_eq_false_iff_ne.mpr hk
        simp [pyInsert, List.lookup, hk, hb]
    · have hstep : pyInsert ((a, b) :: t) k' v = (a, b) :: pyInsert t k' v := by
        simp [pyInsert, hak]
      rw [hstep]
      by_cases hk : k = a
      · have hkk : k ≠ k' := by
          rw [hk]
          exact hak
        simp [List.lookup, hk, hkk, hak]
      · have hb : (k == a) = false := beq_eq_false_iff_ne.mpr hk
        simp [List.lookup, hb, ih]

theorem lookup_append (k : String) (l₁ l₂ : PyDict) :
    List.lookup k (l₁ ++ l₂) = (List.lookup k l₁).or (List.lookup k l₂) := by
  induction l₁ with
  | nil => simp [List.lookup]
  | cons p t ih =>
    obtain ⟨a, b⟩ := p
    by_cases hk : k = a
    · simp [List.lookup, hk]
    · have hb : (k == a) = false := beq_eq_false_iff_ne.mpr hk
      simp [List.lookup, hb, ih]

theorem lookup_pyUpdate (k : String) (a b : PyDict) :
    List.lookup k (pyUpdate a b) = (lookupLast k b).or (List.lookup k a) := by
  induction b generalizing a with
  | nil => simp [pyUpdate, lookupLast, List.lookup]
  | cons p t ih =>
    obtain ⟨k', v⟩ := p
    have step : pyUpdate a ((k', v) :: t) = pyUpdate (pyInsert a k' v) t := rfl
    have hrev : lookupLast k ((k', v) :: t) =
        (lookupLast k t).or (List.lookup k [(k', v)]) := by
      simp only [lookupLast, List.reverse_cons, lookup_append]
    rw [step, ih, hrev, lookup_pyInsert]
    cases hl : lookupLast k t <;> by_cases hk : k = k'
    · simp [List.lookup, hk]
    · simp [List.lookup, hk, beq_eq_false_iff_ne.mpr hk]
    · simp [List.lookup, hk]
    · simp [List.lookup, hk, beq_eq_false_iff_ne.mpr hk]

theorem lookupLast_eq_lookup {k : String} {l : PyDict}
    (h : (l.map Prod.fst).Nodup) : lookupLast k l = List.lookup k l := by
  induction l with
  | nil => rfl
  | cons p t ih =>
    obtain ⟨a, b⟩ := p
    simp only [List.map_cons, List.nodup_cons] at h
    have hrev : lookupLast k ((a, b) :: t) =
        (lookupLast k t).or (List.lookup k [(a, b)]) := by
      simp only [lookupLast, List.reverse_cons, lookup_append]
    rw [hrev, ih h.2]
    by_cases hk : k = a
    · subst hk
      have : List.lookup k t = none :=
        lookup_eq_none_of_not_mem_keys h.1
      simp [List.lookup, this]
    · have hb : (k == a) = false := beq_eq_false_iff_ne.mpr hk
      cases hl : List.lookup k t <;> simp [List.lookup, hb, hl]

theorem lookupLast_eq_none_of_not_mem_keys {k : String} {l : PyDict}
    (h : k ∉ l.map Prod.fst) : lookupLast k l = none := by
  apply lookup_eq_none_of_not_mem_keys
  simpa using h

/-! ## Platform normalizer lemmas and claims C3, C8 -/

theorem normalize_platform_canonical (v : Option String) :
    normalize_platform v = "Android" ∨ normalize_platform v = "iOS" := by
  cases v with
  | none => left; rfl
  | some s =>
    by_cases h0 : s = ""
    · left; simp [normalize_platform, h0]
    · by_cases hl : pyLower s = "ios"
      · right; simp [normalize_platform, h0, hl]
      · left; simp [normalize_platform, h0, hl]

/-- C3: `normalize_platform` always yields one of the two canonical labels,
and yields the iOS label exactly when the lower-cased input is the literal
"ios"; absent, empty and every other input give the Android default. -/
theorem claim_C3_normalize_platform_total (v : Option String) :
    (normalize_platform v = "Android" ∨ normalize_platform v = "iOS") ∧
    (normalize_platform v = "iOS" ↔ ∃ s, v = some s ∧ pyLower s = "ios") := by
  refine ⟨normalize_platform_canonical v, ?_⟩
  constructor
  · intro h
    cases v with
    | none => exact absurd h (by decide)
    | some s =>
      refine ⟨s, rfl, ?_⟩
      by_cases h0 : s = ""
      · rw [normalize_platform, h0] at h
        exact absurd h (by decide)
      · by_cases hl : pyLower s = "ios"
        · exact hl
        · rw [normalize_platform] at h
          simp [h0, hl] at h
  · rintro ⟨s, rfl, hl⟩
    have h0 : s ≠ "" := by
      intro h
      rw [h] at hl
      exact absurd hl (by decide)
    simp [normalize_platform, h0, hl]

theorem claim_C3_witness : normalize_platform (some "IOS") = "iOS" :=
  (claim_C3_normalize_platform_total (some "IOS")).2.mpr ⟨"IOS", rfl, by decide⟩

/-- C8: `normalize_platform` is idempotent, and fixes the two canonical
labels. -/
theorem claim_C8_normalize_platform_idempotent (v : Option String) :
    normalize_platform (some (normalize_platform v)) = normalize_platform v ∧
    normalize_platform (some "Android") = "Android" ∧
    normalize_platform (some "iOS") = "iOS" := by
  refine ⟨?_, by decide, by decide⟩
  rcases normalize_platform_canonical v with h | h <;> rw [h] <;> decide

/-! ## Timestamp formatter claims C10 and C6 -/

/-- C10: `format_timestamp` on any string argument returns the
"Invalid date" sentinel (the `TypeError` from `timestamp/1000` is caught);
no exception escapes. -/
theorem claim_C10_format_timestamp_total_on_strings (s : String) :
    format_timestamp (TSInput.str s) = some "Invalid date" := rfl

/-- C6: evaluation of `format_timestamp` at the failing input
253402300799000 ms (9999-12-31 23:59:59 UTC): `fromtimestamp` succeeds, but
`dt + timedelta(hours=5)` overflows the `datetime` range and the resulting
`OverflowError` is not caught by `except (ValueError, TypeError)` — the
exception (modelled by `none`) propagates instead of yielding the
"Invalid date" sentinel the claim requires. -/
theorem claim_C6_overflow_escapes :
    format_timestamp (TSInput.num 253402300799000) = none ∧
    format_timestamp TSInput.missing = some "Not available" ∧
    format_timestamp (TSInput.num 0) = some "Not available" ∧
    format_timestamp (TSInput.num 1700000500000) = some "03:21:40 2023-11-15" :=
  ⟨rfl, rfl, rfl, rfl⟩

/-! ## Built player records -/

theorem lookup_buildRec_platform (uid : String) (r : PyDict) (p : String) :
    List.lookup "Platform" (buildRec uid r p) = some (JVal.str p) := by
  rw [buildRec, lookup_pyInsert]
  simp

theorem lookup_buildRec_of_ne {k : String} (hP : k ≠ "Platform") (hu : k ≠ "uid")
    (uid : String) {r : PyDict} (hnd : (r.map Prod.fst).Nodup) (p : String) :
    List.lookup k (buildRec uid r p) = List.lookup k r := by
  rw [buildRec, lookup_pyInsert, if_neg hP, lookup_pyUpdate, lookupLast_eq_lookup hnd]
  have hsingle : List.lookup k [("uid", JVal.str uid)] = none := by
    simp [List.lookup, beq_eq_false_iff_ne.mpr hu]
  rw [hsingle]
  cases List.lookup k r <;> rfl

theorem normalize_platform_val_ok {x : Option JVal} {p : String}
    (h : normalize_platform_val x = Except.ok p) : p = "Android" ∨ p = "iOS" := by
  match x with
  | none => cases h; left; rfl
  | some .null => cases h; left; rfl
  | some (.str s) =>
    cases h
    rcases normalize_platform_canonical (some s) with hc | hc
    · left; exact hc
    · right; exact hc
  | some (.num n) =>
    rw [normalize_platform_val] at h
    split at h
    · cases h; left; rfl
    · cases h
  | some (.dict d) =>
    rw [normalize_platform_val] at h
    split at h
    · cases h; left; rfl
    · cases h

theorem buildPlayers_ok_mem {entries : List (String × JVal)} {l : List PyDict}
    (hok : buildPlayers entries = Except.ok l) {r : PyDict} (hr : r ∈ l) :
    ∃ uid rec p, (uid, JVal.dict rec) ∈ entries ∧
      normalize_platform_val (List.lookup "Platform" rec) = Except.ok p ∧
      r = buildRec uid rec p := by
  induction entries generalizing l with
  | nil =>
    cases hok
    cases hr
  | cons e rest ih =>
    obtain ⟨uid, v⟩ := e
    match v with
    | .null | .num _ | .str _ =>
      obtain ⟨uid', rec, p, hmem, hn, heq⟩ := ih hok hr
      exact ⟨uid', rec, p, List.mem_cons_of_mem _ hmem, hn, heq⟩
    | .dict rec =>
      rw [buildPlayers] at hok
      cases hn : normalize_platform_val (List.lookup "Platform" rec) with
      | error e' => rw [hn] at hok; cases hok
      | ok p =>
        rw [hn] at hok
        cases hb : buildPlayers rest with
        | error e' => rw [hb] at hok; cases hok
        | ok l' =>
          rw [hb] at hok
          cases hok
          rcases List.mem_cons.mp hr with heq | htl
          · exact ⟨uid, rec, p, List.mem_cons_self _ _, hn, heq⟩
          · obtain ⟨uid', rec', p', hmem, hn', heq⟩ := ih hb htl
            exact ⟨uid', rec', p', List.mem_cons_of_mem _ hmem, hn', heq⟩

theorem buildPlayers_ok_length {entries : List (String × JVal)} {l : List PyDict}
    (hok : buildPlayers entries = Except.ok l) : l.length ≤ entries.length := by
  induction entries generalizing l with
  | nil => cases hok; exact Nat.le_refl 0
  | cons e rest ih =>
    obtain ⟨uid, v⟩ := e
    match v with
    | .null | .num _ | .str _ =>
      exact Nat.le_succ_of_le (ih hok)
    | .dict rec =>
      rw [buildPlayers] at hok
      cases hn : normalize_platform_val (List.lookup "Platform" rec) with
      | error e' => rw [hn] at hok; cases hok
      | ok p =>
        rw [hn] at hok
        cases hb : buildPlayers rest with
        | error e' => rw [hb] at hok; cases hok
        | ok l' =>
          rw [hb] at hok
          cases hok
          simpa using Nat.succ_le_succ (ih hb)

theorem canonical_of_mem_buildPlayers {entries : List (String × JVal)} {l : List PyDict}
    (hok : buildPlayers entries = Except.ok l) {r : PyDict} (hr : r ∈ l) :
    PlatformCanonical r := by
  obtain ⟨uid, rec, p, _, hn, heq⟩ := buildPlayers_ok_mem hok hr
  subst heq
  rcases normalize_platform_val_ok hn with hp | hp <;>
    rw [PlatformCanonical, lookup_buildRec_platform, hp]
  · left; rfl
  · right; rfl

/-! ## Query plumbing -/

theorem sortDescByE_ok {f : String} {l l' : List PyDict}
    (h : sortDescByE f l = Except.ok l') :
    l' = List.insertionSort (fun a b => timeOf f b ≤ timeOf f a) l ∧
      timesOk f l = true := by
  rw [sortDescByE] at h
  split at h
  · cases h
    exact ⟨rfl, by assumption⟩
  · cases h

theorem mem_sortDescByE {f : String} {l l' : List PyDict}
    (h : sortDescByE f l = Except.ok l') {r : PyDict} (hr : r ∈ l') : r ∈ l := by
  rw [(sortDescByE_ok h).1] at hr
  exact (List.perm_insertionSort _ l).mem_iff.mp hr

theorem mem_limitToLast {l : List (String × JVal)} {m : Nat} {e : String × JVal}
    (h : e ∈ limitToLast l m) : e ∈ l :=
  (List.drop_sublist _ _).subset h

theorem length_limitToLast (l : List (String × JVal)) (m : Nat) :
    (limitToLast l m).length ≤ m := by
  rw [limitToLast, List.length_drop]
  omega

theorem mem_orderByChild {entries : List (String × JVal)} {k : String}
    {e : String × JVal} (h : e ∈ orderByChild entries k) : e ∈ entries :=
  (List.perm_insertionSort _ entries).mem_iff.mp h

/-! ## Claim C9: the canonical-platform invariant at the interface -/

/-- C9: every player record returned by any of the five player-returning
operations carries one of the two canonical platform labels. -/
theorem claim_C9_platform_canonical (st : Store) (limit : Nat) (src uid : String)
    (r : PyDict) :
    (r ∈ fetch_latest_players st limit ∨
     r ∈ fetch_latest_android_players st limit ∨
     r ∈ fetch_latest_ios_players st limit ∨
     r ∈ fetch_players_by_source st src limit ∨
     fetch_player st uid = some r) →
    PlatformCanonical r := by
  have hfiltered : ∀ key lit mult, r ∈ fetchPlayersFiltered st key lit limit mult →
      PlatformCanonical r := by
    intro key lit mult hmem
    rw [fetchPlayersFiltered] at hmem
    split at hmem
    · cases hmem
    · split at hmem
      · cases hmem
      · rename_i x1 l hb x2 sorted hs
        exact canonical_of_mem_buildPlayers hb
          (mem_sortDescByE hs (List.take_subset _ _ hmem))
  rintro (hmem | hmem | hmem | hmem | hmem)
  · rw [fetch_latest_players] at hmem
    split at hmem
    · rename_i x1 l hb
      exact canonical_of_mem_buildPlayers hb hmem
    · cases hmem
  · exact hfiltered "Platform" "" 2 hmem
  · exact hfiltered "Platform" "ios" 2 hmem
  · exact hfiltered "Source" src 2 hmem
  · rw [fetch_player] at hmem
    split at hmem
    · split at hmem
      · rename_i x1 rec hl x2 p hn
        cases hmem
        rcases normalize_platform_val_ok hn with hp | hp <;>
          rw [PlatformCanonical, lookup_pyInsert, if_pos rfl, hp]
        · left; rfl
        · right; rfl
      · cases hmem
    · cases hmem

/-- Witness for C9: `fetch_player` on the concrete store returns the iOS
player with its canonical label. -/
theorem claim_C9_witness :
    PlatformCanonical [("Install_time", JVal.num 100), ("Platform", JVal.str "iOS"),
                       ("Geo", JVal.str "US")] :=
  claim_C9_platform_canonical wStore 1 "" "u1" _
    (Or.inr (Or.inr (Or.inr (Or.inr rfl))))

/-! ## Enrichment lemmas -/

theorem keys_player_fields (p : PyDict) :
    (player_fields p).map Prod.fst = playerFieldKeys := rfl

theorem enrichEvent_nil (st : Store) : enrichEvent st [] = [] := rfl

theorem lookup_enrichEvent_of_not_mem {k : String} (hk : k ∉ playerFieldKeys)
    (st : Store) (r : PyDict) :
    List.lookup k (enrichEvent st r) = List.lookup k r := by
  cases hu : eventUserId r with
  | none => simp [enrichEvent, hu]
  | some u =>
    cases hp : fetch_player st u with
    | none => simp [enrichEvent, hu, hp]
    | some p =>
      have hnone : lookupLast k (player_fields p) = none := by
        apply lookupLast_eq_none_of_not_mem_keys
        rw [keys_player_fields]
        exact hk
      simp only [enrichEvent, hu, hp, lookup_pyUpdate, hnone]
      cases List.lookup k r <;> rfl

theorem enrichEvent_not_found {st : Store} {r : PyDict}
    (h : ∀ u, eventUserId r = some u → fetch_player st u = none) :
    enrichEvent st r = r := by
  cases hu : eventUserId r with
  | none => simp [enrichEvent, hu]
  | some u => simp [enrichEvent, hu, h u hu]

theorem getD_map_enrich (st : Store) (l : List PyDict) (i : Nat) :
    (l.map (enrichEvent st)).getD i [] = enrichEvent st (l.getD i []) := by
  induction l generalizing i with
  | nil => cases i <;> rfl
  | cons a t ih =>
    cases i with
    | zero => rfl
    | succ n => exact ih n

/-! ## Claim C5: a failed player lookup never removes or changes the event -/

/-- C5: an event whose owner lookup fails is returned unmodified and still
appears in the result set, for both the conversions and the IAP pipeline. -/
theorem claim_C5_missing_player_keeps_event (st : Store) (limit : Nat) (r : PyDict)
    (hfail : ∀ u, eventUserId r = some u → fetch_player st u = none) :
    enrichEvent st r = r ∧
    (r ∈ latestConversions st limit →
      r ∈ fetch_latest_conversions_with_player_data st limit) ∧
    (r ∈ latestIaps st limit → r ∈ fetch_latest_iap_with_player_data st limit) := by
  have he := enrichEvent_not_found hfail
  refine ⟨he, fun hm => ?_, fun hm => ?_⟩
  · rw [fetch_latest_conversions_with_player_data]
    have := List.mem_map_of_mem (enrichEvent st) hm
    rwa [he] at this
  · rw [fetch_latest_iap_with_player_data]
    have := List.mem_map_of_mem (enrichEvent st) hm
    rwa [he] at this

/-- Witness for C5: in the concrete store the conversion owned by the
nonexistent player "u3" comes back unmodified in the enriched result. -/
theorem claim_C5_witness :
    enrichEvent wStore [("user_id", JVal.str "u3"), ("conversion_id", JVal.str "c2"),
        ("time", JVal.num 20)] =
      [("user_id", JVal.str "u3"), ("conversion_id", JVal.str "c2"),
        ("time", JVal.num 20)] ∧
    [("user_id", JVal.str "u3"), ("conversion_id", JVal.str "c2"),
        ("time", JVal.num 20)] ∈
      fetch_latest_conversions_with_player_data wStore 2 := by
  have h := claim_C5_missing_player_keeps_event wStore 2
    [("user_id", JVal.str "u3"), ("conversion_id", JVal.str "c2"), ("time", JVal.num 20)]
    (fun u hu => by cases hu; rfl)
  refine ⟨h.1, h.2.1 ?_⟩
  have hc : latestConversions wStore 2 =
      [[("user_id", JVal.str "u3"), ("conversion_id", JVal.str "c2"),
        ("time", JVal.num 20)],
       [("user_id", JVal.str "u1"), ("conversion_id", JVal.str "c1"),
        ("time", JVal.num 10)]] := rfl
  rw [hc]
  exact List.mem_cons_self _ _

/-! ## Claim C4: enrichment is total, but collisions overwrite -/

/-- C4 counterexample: a conversion that already carries a `player_geo`
field has its value overwritten (from "orig" to the player's "US") by the
dict merge, so an original event field does not keep its value; the record
count is nevertheless preserved. -/
theorem claim_C4_counterexample :
    List.lookup "player_geo" ((latestConversions cexStoreC4 1).getD 0 []) =
      some (JVal.str "orig") ∧
    List.lookup "player_geo"
        ((fetch_latest_conversions_with_player_data cexStoreC4 1).getD 0 []) =
      some (JVal.str "US") ∧
    (fetch_latest_conversions_with_player_data cexStoreC4 1).length =
      (latestConversions cexStoreC4 1).length :=
  ⟨rfl, rfl, rfl⟩

/-- C4 (amended): both enrichment stages produce exactly one output per
input, in order (no drop, no duplication), and an output record agrees with
its input on every key other than the nine prefixed `player_*` keys; a field
that shares a `player_*` name can be overwritten when the player is found. -/
theorem claim_C4_amended (st : Store) (limit : Nat) :
    (fetch_latest_conversions_with_player_data st limit).length =
      (latestConversions st limit).length ∧
    (∀ i, (fetch_latest_conversions_with_player_data st limit).getD i [] =
      enrichEvent st ((latestConversions st limit).getD i [])) ∧
    (fetch_latest_iap_with_player_data st limit).length =
      (latestIaps st limit).length ∧
    (∀ i, (fetch_latest_iap_with_player_data st limit).getD i [] =
      enrichEvent st ((latestIaps st limit).getD i [])) ∧
    (∀ r k, k ∉ playerFieldKeys →
      List.lookup k (enrichEvent st r) = List.lookup k r) := by
  refine ⟨List.length_map _ _, fun i => getD_map_enrich st _ i,
          List.length_map _ _, fun i => getD_map_enrich st _ i,
          fun r k hk => lookup_enrichEvent_of_not_mem hk st r⟩

/-- Witness for C4 (amended): the enriched conversion of the concrete store
keeps its `time` field. -/
theorem claim_C4_witness :
    List.lookup "time" (enrichEvent wStore [("user_id", JVal.str "u1"),
        ("conversion_id", JVal.str "c1"), ("time", JVal.num 10)]) =
      List.lookup "time" [("user_id", JVal.str "u1"),
        ("conversion_id", JVal.str "c1"), ("time", JVal.num 10)] :=
  (claim_C4_amended wStore 1).2.2.2.2 _ "time" (by decide)

/-! ## Flattening lemmas -/

theorem mem_flattenOwner {tag u : String} {l : List (String × JVal)} {r : PyDict} :
    r ∈ flattenOwner tag u l ↔ ∃ c d, (c, JVal.dict d) ∈ l ∧ r = mkEvent tag u c d := by
  induction l with
  | nil => simp [flattenOwner]
  | cons e rest ih =>
    obtain ⟨c', v⟩ := e
    match v with
    | .null | .num _ | .str _ =>
      constructor
      · intro hr
        obtain ⟨c, d, hm, he⟩ := ih.mp hr
        exact ⟨c, d, List.mem_cons_of_mem _ hm, he⟩
      · rintro ⟨c, d, hm, he⟩
        rcases List.mem_cons.mp hm with heq | hm'
        · cases heq
        · exact ih.mpr ⟨c, d, hm', he⟩
    | .dict d' =>
      constructor
      · intro hr
        rcases List.mem_cons.mp hr with heq | hr'
        · exact ⟨c', d', List.mem_cons_self _ _, heq⟩
        · obtain ⟨c, d, hm, he⟩ := ih.mp hr'
          exact ⟨c, d, List.mem_cons_of_mem _ hm, he⟩
      · rintro ⟨c, d, hm, he⟩
        rcases List.mem_cons.mp hm with heq | hm'
        · cases heq
          exact he ▸ List.mem_cons_self _ _
        · exact List.mem_cons_of_mem _ (ih.mpr ⟨c, d, hm', he⟩)

theorem mem_flattenNested {tag : String} {data : List (String × JVal)} {r : PyDict} :
    r ∈ flattenNested tag data ↔
      ∃ u ud c d, (u, JVal.dict ud) ∈ data ∧ (c, JVal.dict d) ∈ ud ∧
        r = mkEvent tag u c d := by
  induction data with
  | nil => simp [flattenNested]
  | cons e rest ih =>
    obtain ⟨u', v⟩ := e
    match v with
    | .null | .num _ | .str _ =>
      constructor
      · intro hr
        obtain ⟨u, ud, c, d, h1, h2, he⟩ := ih.mp hr
        exact ⟨u, ud, c, d, List.mem_cons_of_mem _ h1, h2, he⟩
      · rintro ⟨u, ud, c, d, h1, h2, he⟩
        rcases List.mem_cons.mp h1 with heq | h1'
        · cases heq
        · exact ih.mpr ⟨u, ud, c, d, h1', h2, he⟩
    | .dict ud' =>
      constructor
      · intro hr
        rcases List.mem_append.mp hr with h1 | h2
        · obtain ⟨c, d, hm, he⟩ := mem_flattenOwner.mp h1
          exact ⟨u', ud', c, d, List.mem_cons_self _ _, hm, he⟩
        · obtain ⟨u, ud, c, d, h1', h2', he⟩ := ih.mp h2
          exact ⟨u, ud, c, d, List.mem_cons_of_mem _ h1', h2', he⟩
      · rintro ⟨u, ud, c, d, h1, h2, he⟩
        rcases List.mem_cons.mp h1 with heq | h1'
        · cases heq
          exact List.mem_append.mpr (Or.inl (mem_flattenOwner.mpr ⟨c, d, h2, he⟩))
        · exact List.mem_append.mpr (Or.inr (ih.mpr ⟨u, ud, c, d, h1', h2, he⟩))

theorem lookupStr_mkEvent_userId {tag u c : String} {d : PyDict}
    (h1 : "user_id" ∉ d.map Prod.fst) :
    lookupStr "user_id" (mkEvent tag u c d) = some u := by
  rw [lookupStr, mkEvent, lookup_pyUpdate, lookupLast_eq_none_of_not_mem_keys h1]
  rfl

theorem lookupStr_mkEvent_tag {tag u c : String} {d : PyDict}
    (htag : tag ≠ "user_id") (h2 : tag ∉ d.map Prod.fst) :
    lookupStr tag (mkEvent tag u c d) = some c := by
  rw [lookupStr, mkEvent, lookup_pyUpdate, lookupLast_eq_none_of_not_mem_keys h2]
  simp [List.lookup, beq_eq_false_iff_ne.mpr htag]

theorem isTagged_mkEvent_iff {tag u₀ c₀ u c : String} {d : PyDict}
    (htag : tag ≠ "user_id")
    (h1 : "user_id" ∉ d.map Prod.fst) (h2 : tag ∉ d.map Prod.fst) :
    isTagged tag u₀ c₀ (mkEvent tag u c d) = true ↔ (u = u₀ ∧ c = c₀) := by
  rw [isTagged, lookupStr_mkEvent_userId h1, lookupStr_mkEvent_tag htag h2]
  simp

theorem countP_isTagged_flattenOwner_ne {tag u₀ c₀ u : String} {l : List (String × JVal)}
    (htag : tag ≠ "user_id")
    (hno : ∀ c d, (c, JVal.dict d) ∈ l →
      "user_id" ∉ d.map Prod.fst ∧ tag ∉ d.map Prod.fst)
    (hu : u ≠ u₀) :
    List.countP (isTagged tag u₀ c₀) (flattenOwner tag u l) = 0 := by
  rw [List.countP_eq_zero]
  intro r hr
  obtain ⟨c, d, hm, he⟩ := mem_flattenOwner.mp hr
  subst he
  obtain ⟨h1, h2⟩ := hno c d hm
  rw [isTagged_mkEvent_iff htag h1 h2]
  rintro ⟨h, _⟩
  exact hu h

theorem countP_isTagged_flattenOwner_zero_of_key {tag u c : String}
    {l : List (String × JVal)} (htag : tag ≠ "user_id")
    (hno : ∀ c' d', (c', JVal.dict d') ∈ l →
      "user_id" ∉ d'.map Prod.fst ∧ tag ∉ d'.map Prod.fst)
    (hkey : c ∉ l.map Prod.fst) :
    List.countP (isTagged tag u c) (flattenOwner tag u l) = 0 := by
  rw [List.countP_eq_zero]
  intro r hr
  obtain ⟨c', d', hm, he⟩ := mem_flattenOwner.mp hr
  subst he
  obtain ⟨h1, h2⟩ := hno c' d' hm
  rw [isTagged_mkEvent_iff htag h1 h2]
  rintro ⟨_, hc⟩
  subst hc
  exact hkey (List.mem_map_of_mem Prod.fst hm)

theorem countP_isTagged_flattenOwner_eq {tag u c : String} {l : List (String × JVal)}
    {d : PyDict} (htag : tag ≠ "user_id")
    (hno : ∀ c' d', (c', JVal.dict d') ∈ l →
      "user_id" ∉ d'.map Prod.fst ∧ tag ∉ d'.map Prod.fst)
    (hnd : (l.map Prod.fst).Nodup) (hm : (c, JVal.dict d) ∈ l) :
    List.countP (isTagged tag u c) (flattenOwner tag u l) = 1 := by
  induction l with
  | nil => cases hm
  | cons e rest ih =>
    obtain ⟨c', v⟩ := e
    simp only [List.map_cons, List.nodup_cons] at hnd
    have hnoRest : ∀ c'' d'', (c'', JVal.dict d'') ∈ rest →
        "user_id" ∉ d''.map Prod.fst ∧ tag ∉ d''.map Prod.fst :=
      fun c'' d'' hmm => hno c'' d'' (List.mem_cons_of_mem _ hmm)
    match v with
    | .null | .num _ | .str _ =>
      rcases List.mem_cons.mp hm with heq | hm'
      · cases heq
      · exact ih hnoRest hnd.2 hm'
    | .dict d0 =>
      have hcons : flattenOwner tag u ((c', JVal.dict d0) :: rest) =
          mkEvent tag u c' d0 :: flattenOwner tag u rest := rfl
      rw [hcons, List.countP_cons]
      by_cases hc : c' = c
      · subst hc
        have hd0 : d0 = d := by
          rcases List.mem_cons.mp hm with heq | hm'
          · cases heq
            rfl
          · exact absurd (List.mem_map_of_mem Prod.fst hm') hnd.1
        subst hd0
        obtain ⟨h1, h2⟩ := hno c' d0 (List.mem_cons_self _ _)
        have hhead : isTagged tag u c' (mkEvent tag u c' d0) = true :=
          (isTagged_mkEvent_iff htag h1 h2).mpr ⟨rfl, rfl⟩
        rw [countP_isTagged_flattenOwner_zero_of_key htag hnoRest hnd.1, hhead]
        rfl
      · have hm' : (c, JVal.dict d) ∈ rest := by
          rcases List.mem_cons.mp hm with heq | hm'
          · cases heq
            exact absurd rfl hc
          · exact hm'
        have hhead : isTagged tag u c (mkEvent tag u c' d0) = false := by
          obtain ⟨h1, h2⟩ := hno c' d0 (List.mem_cons_self _ _)
          rw [Bool.eq_false_iff]
          intro hT
          exact hc ((isTagged_mkEvent_iff htag h1 h2).mp hT).2
        rw [hhead, ih hnoRest hnd.2 hm']
        rfl

theorem noTagCollision_tail {tag : String} {e : String × JVal}
    {rest : List (String × JVal)} (h : NoTagCollision tag (e :: rest)) :
    NoTagCollision tag rest :=
  fun u ud c d h1 h2 => h u ud c d (List.mem_cons_of_mem _ h1) h2

theorem countP_isTagged_flattenNested_zero {tag u c : String}
    {data : List (String × JVal)} (htag : tag ≠ "user_id")
    (hno : NoTagCollision tag data) (hu : u ∉ data.map Prod.fst) :
    List.countP (isTagged tag u c) (flattenNested tag data) = 0 := by
  rw [List.countP_eq_zero]
  intro r hr
  obtain ⟨u', ud', c', d', h1, h2, he⟩ := mem_flattenNested.mp hr
  subst he
  obtain ⟨hk1, hk2⟩ := hno u' ud' c' d' h1 h2
  rw [isTagged_mkEvent_iff htag hk1 hk2]
  rintro ⟨hu', _⟩
  subst hu'
  exact hu (List.mem_map_of_mem Prod.fst h1)

theorem countP_isTagged_flattenNested {tag u c : String} {data : List (String × JVal)}
    {ud : List (String × JVal)} {d : PyDict} (htag : tag ≠ "user_id")
    (hnodup : (data.map Prod.fst).Nodup) (hinner : (ud.map Prod.fst).Nodup)
    (hno : NoTagCollision tag data)
    (hu : (u, JVal.dict ud) ∈ data) (hc : (c, JVal.dict d) ∈ ud) :
    List.countP (isTagged tag u c) (flattenNested tag data) = 1 := by
  induction data with
  | nil => cases hu
  | cons e rest ih =>
    obtain ⟨u', v⟩ := e
    simp only [List.map_cons, List.nodup_cons] at hnodup
    have hnoRest := noTagCollision_tail hno
    match v with
    | .null | .num _ | .str _ =>
      rcases List.mem_cons.mp hu with heq | hu'
      · cases heq
      · exact ih hnodup.2 hnoRest hu'
    | .dict ud0 =>
      have hcons : flattenNested tag ((u', JVal.dict ud0) :: rest) =
          flattenOwner tag u' ud0 ++ flattenNested tag rest := rfl
      rw [hcons, List.countP_append]
      have hownerLeaves : ∀ c' d', (c', JVal.dict d') ∈ ud0 →
          "user_id" ∉ d'.map Prod.fst ∧ tag ∉ d'.map Prod.fst :=
        fun c' d' hmm => hno u' ud0 c' d' (List.mem_cons_self _ _) hmm
      by_cases huu : u' = u
      · subst huu
        have hud0 : ud0 = ud := by
          rcases List.mem_cons.mp hu with heq | hu'
          · cases heq
            rfl
          · exact absurd (List.mem_map_of_mem Prod.fst hu') hnodup.1
        subst hud0
        rw [countP_isTagged_flattenOwner_eq htag hownerLeaves hinner hc,
            countP_isTagged_flattenNested_zero htag hnoRest hnodup.1]
      · have hu' : (u, JVal.dict ud) ∈ rest := by
          rcases List.mem_cons.mp hu with heq | hu'
          · cases heq
            exact absurd rfl huu
          · exact hu'
        rw [countP_isTagged_flattenOwner_ne htag hownerLeaves huu,
            ih hnodup.2 hnoRest hu']

/-! ## Claim C7: flattening -/

/-- C7 counterexample: the store whose only (mapping) leaf is
`{"user_id": "evil"}` under owner "u1", key "c1", yields one flattened
record, but no record tagged with the owner identifier "u1" — the leaf's
own `user_id` field overrides the tag in the dict merge. -/
theorem claim_C7_counterexample :
    (flattenNested "conversion_id" cexNestedC7).length = 1 ∧
    List.countP (isTagged "conversion_id" "u1" "c1")
      (flattenNested "conversion_id" cexNestedC7) = 0 ∧
    flattenNested "conversion_id" cexNestedC7 =
      [[("user_id", JVal.str "evil"), ("conversion_id", JVal.str "c1")]] :=
  ⟨rfl, rfl, rfl⟩

/-- C7 (amended): under the dict-model hypotheses that hold of the real
store (unique owner keys, unique leaf keys) and provided no leaf record
itself carries a `user_id` or tag-key field, every mapping leaf of a mapping
owner appears exactly once in the flattened list, tagged with both its
owner's identifier and its own identifier; non-mapping entries are skipped,
and every flattened record arises from some mapping leaf. -/
theorem claim_C7_flattening (tag : String) (data ud : List (String × JVal))
    (u c : String) (d : PyDict) (htag : tag ≠ "user_id")
    (hnodup : (data.map Prod.fst).Nodup) (hinner : (ud.map Prod.fst).Nodup)
    (hno : NoTagCollision tag data)
    (hu : (u, JVal.dict ud) ∈ data) (hc : (c, JVal.dict d) ∈ ud) :
    mkEvent tag u c d ∈ flattenNested tag data ∧
    List.countP (isTagged tag u c) (flattenNested tag data) = 1 ∧
    lookupStr "user_id" (mkEvent tag u c d) = some u ∧
    lookupStr tag (mkEvent tag u c d) = some c ∧
    (∀ r ∈ flattenNested tag data,
      ∃ u' ud' c' d', (u', JVal.dict ud') ∈ data ∧ (c', JVal.dict d') ∈ ud' ∧
        r = mkEvent tag u' c' d') := by
  obtain ⟨hk1, hk2⟩ := hno u ud c d hu hc
  refine ⟨mem_flattenNested.mpr ⟨u, ud, c, d, hu, hc, rfl⟩,
    countP_isTagged_flattenNested htag hnodup hinner hno hu hc,
    lookupStr_mkEvent_userId hk1, lookupStr_mkEvent_tag htag hk2, ?_⟩
  intro r hr
  exact mem_flattenNested.mp hr

/-- Witness for C7: in the concrete store the conversion leaf "c1" of owner
"u1" appears exactly once, correctly tagged. -/
theorem claim_C7_witness :
    List.countP (isTagged "conversion_id" "u1" "c1")
      (flattenNested "conversion_id" wStore.conversions) = 1 ∧
    lookupStr "user_id" (mkEvent "conversion_id" "u1" "c1" [("time", JVal.num 10)]) =
      some "u1" := by
  have hno : NoTagCollision "conversion_id" wStore.conversions := by
    intro u' ud' c' d' h1 h2
    simp only [wStore, List.mem_cons, List.not_mem_nil, or_false] at h1
    rcases h1 with h1 | h1 <;> cases h1 <;>
      simp only [List.mem_cons, List.not_mem_nil, or_false] at h2 <;>
      cases h2 <;> decide
  have h := claim_C7_flattening "conversion_id" wStore.conversions
    [("c1", JVal.dict [("time", JVal.num 10)])] "u1" "c1" [("time", JVal.num 10)]
    (by decide) (by decide) (by decide) hno
    (List.mem_cons_self _ _) (List.mem_cons_self _ _)
  exact ⟨h.2.1, h.2.2.1⟩

/-! ## Descending-sort lemmas -/

theorem descBy_sortDescByE {f : String} {l l' : List PyDict}
    (h : sortDescByE f l = Except.ok l') : DescBy f l' := by
  obtain ⟨h1, _⟩ := sortDescByE_ok h
  rw [h1]
  haveI : IsTotal PyDict (fun a b => timeOf f b ≤ timeOf f a) :=
    ⟨fun a b => le_total _ _⟩
  haveI : IsTrans PyDict (fun a b => timeOf f b ≤ timeOf f a) :=
    ⟨fun a b c h1 h2 => le_trans h2 h1⟩
  exact List.sorted_insertionSort _ l

theorem length_fetchPlayersFiltered (st : Store) (key lit : String) (limit mult : Nat) :
    (fetchPlayersFiltered st key lit limit mult).length ≤ limit := by
  rw [fetchPlayersFiltered]
  split
  · simp
  · split
    · simp
    · rw [List.length_take]
      exact Nat.min_le_left _ _

theorem descBy_fetchPlayersFiltered (st : Store) (key lit : String) (limit mult : Nat) :
    DescBy "Install_time" (fetchPlayersFiltered st key lit limit mult) := by
  rw [fetchPlayersFiltered]
  split
  · exact List.Pairwise.nil
  · split
    · exact List.Pairwise.nil
    · rename_i x1 l hb x2 sorted hs
      exact List.Pairwise.sublist (List.take_sublist _ _) (descBy_sortDescByE hs)

theorem mem_filterChildEqStr {entries : List (String × JVal)} {k s : String}
    {e : String × JVal} (h : e ∈ filterChildEqStr entries k s) :
    e ∈ entries ∧ childVal e.2 k = some (JVal.str s) := by
  obtain ⟨hm, hp⟩ := List.mem_filter.mp h
  refine ⟨hm, ?_⟩
  rcases hcv : childVal e.2 k with _ | v
  · rw [hcv] at hp
    cases hp
  · rw [hcv] at hp
    match v with
    | .null | .num _ | .dict _ => cases hp
    | .str t =>
      have : t = s := of_decide_eq_true hp
      rw [this]

theorem provenance_fetchPlayersFiltered {st : Store} {key lit : String}
    {limit mult : Nat} {r : PyDict}
    (hmem : r ∈ fetchPlayersFiltered st key lit limit mult) :
    ∃ uid rec p, (uid, JVal.dict rec) ∈ st.players ∧
      List.lookup key rec = some (JVal.str lit) ∧
      normalize_platform_val (List.lookup "Platform" rec) = Except.ok p ∧
      r = buildRec uid rec p := by
  rw [fetchPlayersFiltered] at hmem
  split at hmem
  · cases hmem
  · split at hmem
    · cases hmem
    · rename_i x1 l hb x2 sorted hs
      have hmem' : r ∈ l := mem_sortDescByE hs (List.take_subset _ _ hmem)
      obtain ⟨uid, rec, p, hent, hn, heq⟩ := buildPlayers_ok_mem hb hmem'
      obtain ⟨hin, hcv⟩ :=
        mem_filterChildEqStr (mem_orderByChild (mem_limitToLast hent))
      exact ⟨uid, rec, p, hin, hcv, hn, heq⟩

/-! ## Claim C2: the platform-filtered fetches vs. local normalized filtering -/

/-- C2 counterexample: with one player whose raw tag is "Android"
(install 100) and one whose raw tag is "" (install 50), the store-level
`equal_to("")` filter never sees the first player, so the fetched result and
the spec's fetch-all-then-filter-by-normalized-platform result disagree. -/
theorem claim_C2_counterexample :
    List.lookup "uid" ((fetch_latest_android_players cexStoreC2 1).getD 0 []) =
      some (JVal.str "b") ∧
    List.lookup "uid" ((playersLocalFilterSpec cexStoreC2 "Android" 1).getD 0 []) =
      some (JVal.str "a") ∧
    fetch_latest_android_players cexStoreC2 1 ≠
      playersLocalFilterSpec cexStoreC2 "Android" 1 := by
  refine ⟨rfl, rfl, ?_⟩
  intro h
  have h1 : List.lookup "uid" ((fetch_latest_android_players cexStoreC2 1).getD 0 []) =
      some (JVal.str "b") := rfl
  rw [h] at h1
  have h2 : List.lookup "uid" ((playersLocalFilterSpec cexStoreC2 "Android" 1).getD 0 []) =
      some (JVal.str "a") := rfl
  rw [h1] at h2
  injection h2 with h3
  injection h3 with h4
  exact absurd h4 (by decide)

/-- C2 (amended): the platform-filtered fetches return at most N records in
descending install order whose `Platform` field is the target canonical
label, but they draw only from store entries whose *raw* platform tag equals
the pushed literal ("" for Android, "ios" for iOS); no re-filtering by
normalized platform happens, so a player whose raw tag normalizes to the
target without matching the literal (e.g. "Android", or an absent tag) is
never returned, and the result is not the N most recent players of that
normalized platform. -/
theorem claim_C2_filtered_fetch (st : Store) (limit : Nat) :
    (fetch_latest_android_players st limit).length ≤ limit ∧
    DescBy "Install_time" (fetch_latest_android_players st limit) ∧
    (∀ r ∈ fetch_latest_android_players st limit,
      List.lookup "Platform" r = some (JVal.str "Android") ∧
      ∃ uid rec, (uid, JVal.dict rec) ∈ st.players ∧
        List.lookup "Platform" rec = some (JVal.str "") ∧
        r = buildRec uid rec "Android") ∧
    (fetch_latest_ios_players st limit).length ≤ limit ∧
    DescBy "Install_time" (fetch_latest_ios_players st limit) ∧
    (∀ r ∈ fetch_latest_ios_players st limit,
      List.lookup "Platform" r = some (JVal.str "iOS") ∧
      ∃ uid rec, (uid, JVal.dict rec) ∈ st.players ∧
        List.lookup "Platform" rec = some (JVal.str "ios") ∧
        r = buildRec uid rec "iOS") := by
  refine ⟨length_fetchPlayersFiltered st _ _ limit 2,
          descBy_fetchPlayersFiltered st _ _ limit 2, fun r hmem => ?_,
          length_fetchPlayersFiltered st _ _ limit 2,
          descBy_fetchPlayersFiltered st _ _ limit 2, fun r hmem => ?_⟩
  · obtain ⟨uid, rec, p, hin, hcv, hn, heq⟩ := provenance_fetchPlayersFiltered hmem
    rw [hcv] at hn
    have hp : Except.ok (ε := Unit) "Android" = Except.ok p := hn
    cases hp
    subst heq
    exact ⟨lookup_buildRec_platform uid rec _, uid, rec, hin, hcv, rfl⟩
  · obtain ⟨uid, rec, p, hin, hcv, hn, heq⟩ := provenance_fetchPlayersFiltered hmem
    rw [hcv] at hn
    have hp : Except.ok (ε := Unit) "iOS" = Except.ok p := hn
    cases hp
    subst heq
    exact ⟨lookup_buildRec_platform uid rec _, uid, rec, hin, hcv, rfl⟩

/-- Witness for C2 (amended): the single Android-filtered result of the
concrete store carries the canonical label and stems from the raw-""-tagged
player "u2". -/
theorem claim_C2_witness :
    List.lookup "Platform" [("uid", JVal.str "u2"), ("Install_time", JVal.num 200),
      ("Platform", JVal.str "Android")] = some (JVal.str "Android") ∧
    ∃ uid rec, (uid, JVal.dict rec) ∈ wStore.players ∧
      List.lookup "Platform" rec = some (JVal.str "") ∧
      [("uid", JVal.str "u2"), ("Install_time", JVal.num 200),
       ("Platform", JVal.str "Android")] = buildRec uid rec "Android" :=
  (claim_C2_filtered_fetch wStore 10).2.2.1 _ (by
    rw [show fetch_latest_android_players wStore 10 =
      [[("uid", JVal.str "u2"), ("Install_time", JVal.num 200),
        ("Platform", JVal.str "Android")]] from rfl]
    exact List.mem_cons_self _ _)

/-! ## Firebase child-ordering lemmas -/

theorem strLeChars_total : ∀ x y : List Char,
    strLeChars x y = true ∨ strLeChars y x = true := by
  intro x
  induction x with
  | nil => intro y; left; rfl
  | cons a as ih =>
    intro y
    cases y with
    | nil => right; rfl
    | cons b bs =>
      rcases Nat.lt_trichotomy a.toNat b.toNat with h | h | h
      · left
        simp [strLeChars, h]
      · have h1 : ¬ a.toNat < b.toNat := by omega
        have h2 : ¬ b.toNat < a.toNat := by omega
        rcases ih bs with hl | hr
        · left
          simp [strLeChars, h1, h2, hl]
        · right
          simp [strLeChars, h1, h2, hr]
      · right
        simp [strLeChars, h]

theorem strLeChars_trans : ∀ x y z : List Char, strLeChars x y = true →
    strLeChars y z = true → strLeChars x z = true := by
  intro x
  induction x with
  | nil => intro y z h1 h2; rfl
  | cons a as ih =>
    intro y z h1 h2
    cases y with
    | nil => simp [strLeChars] at h1
    | cons b bs =>
      cases z with
      | nil => simp [strLeChars] at h2
      | cons c cs =>
        simp only [strLeChars] at h1 h2 ⊢
        split_ifs at h1 h2 ⊢ <;>
          first
          | rfl
          | (exact ih bs cs h1 h2)
          | (exfalso; omega)

theorem fbLe_total : ∀ a b : Option JVal, fbLe a b = true ∨ fbLe b a = true := by
  intro a b
  rcases a with _ | v
  · rcases b with _ | w
    · left; rfl
    · rcases w with _ | y | t | e <;> simp [fbLe, fbRank]
  · rcases b with _ | w
    · rcases v with _ | x | s | d <;> simp [fbLe, fbRank]
    · rcases v with _ | x | s | d <;> rcases w with _ | y | t | e <;>
        simp [fbLe, fbRank] <;>
        first
        | omega
        | exact Int.le_total x y
        | exact strLeChars_total s.data t.data

theorem fbLe_trans : ∀ a b c : Option JVal,
    fbLe a b = true → fbLe b c = true → fbLe a c = true := by
  intro a b c h1 h2
  rcases a with _ | v <;> rcases b with _ | w <;> rcases c with _ | x
  case none.none.none => rfl
  all_goals try rcases v with _ | nv | sv | dv
  all_goals try rcases w with _ | nw | sw | dw
  all_goals try rcases x with _ | nx | sx | dx
  all_goals simp_all [fbLe, fbRank]
  all_goals first
  | omega
  | exact le_trans h1 h2
  | exact strLeChars_trans _ _ _ h1 h2

theorem pairwise_orderByChild (entries : List (String × JVal)) (k : String) :
    (orderByChild entries k).Pairwise
      (fun e1 e2 => fbLe (childVal e1.2 k) (childVal e2.2 k) = true) := by
  haveI : IsTotal (String × JVal)
      (fun e1 e2 => fbLe (childVal e1.2 k) (childVal e2.2 k) = true) :=
    ⟨fun a b => fbLe_total _ _⟩
  haveI : IsTrans (String × JVal)
      (fun e1 e2 => fbLe (childVal e1.2 k) (childVal e2.2 k) = true) :=
    ⟨fun a b c => fbLe_trans _ _ _⟩
  exact List.sorted_insertionSort _ entries

/-! ## Order transport through the player build loop -/

theorem buildPlayers_pairwise {S : (String × JVal) → (String × JVal) → Prop}
    {R : PyDict → PyDict → Prop} {entries : List (String × JVal)} {l : List PyDict}
    (hok : buildPlayers entries = Except.ok l) (hp : entries.Pairwise S)
    (hSR : ∀ uid₁ r₁ p₁ uid₂ r₂ p₂, S (uid₁, JVal.dict r₁) (uid₂, JVal.dict r₂) →
      normalize_platform_val (List.lookup "Platform" r₁) = Except.ok p₁ →
      normalize_platform_val (List.lookup "Platform" r₂) = Except.ok p₂ →
      R (buildRec uid₁ r₁ p₁) (buildRec uid₂ r₂ p₂)) :
    l.Pairwise R := by
  induction entries generalizing l with
  | nil =>
    cases hok
    exact List.Pairwise.nil
  | cons e rest ih =>
    obtain ⟨uid, v⟩ := e
    obtain ⟨hhead, htail⟩ := List.pairwise_cons.mp hp
    match v with
    | .null | .num _ | .str _ => exact ih hok htail
    | .dict rec =>
      rw [buildPlayers] at hok
      cases hn : normalize_platform_val (List.lookup "Platform" rec) with
      | error e' => rw [hn] at hok; cases hok
      | ok p =>
        rw [hn] at hok
        cases hb : buildPlayers rest with
        | error e' => rw [hb] at hok; cases hok
        | ok l' =>
          rw [hb] at hok
          cases hok
          refine List.pairwise_cons.mpr ⟨fun b hb' => ?_, ih hb htail⟩
          obtain ⟨uid₂, rec₂, p₂, hm₂, hn₂, heq₂⟩ := buildPlayers_ok_mem hb hb'
          subst heq₂
          exact hSR uid rec p uid₂ rec₂ p₂ (hhead _ hm₂) hn hn₂

theorem timeOf_buildRec {r : PyDict} (hnd : (r.map Prod.fst).Nodup) (uid p : String) :
    timeOf "Install_time" (buildRec uid r p) = timeOf "Install_time" r := by
  unfold timeOf
  rw [lookup_buildRec_of_ne (by decide) (by decide) uid hnd p]

/-! ## Length and order of the event pipelines -/

theorem length_latestConversions (st : Store) (limit : Nat) :
    (latestConversions st limit).length ≤ limit := by
  rw [latestConversions]
  split
  · rw [List.length_take]
    exact Nat.min_le_left _ _
  · simp

theorem descBy_latestConversions (st : Store) (limit : Nat) :
    DescBy "time" (latestConversions st limit) := by
  rw [latestConversions]
  split
  · rename_i x l hs
    exact List.Pairwise.sublist (List.take_sublist _ _) (descBy_sortDescByE hs)
  · exact List.Pairwise.nil

theorem length_latestIaps (st : Store) (limit : Nat) :
    (latestIaps st limit).length ≤ limit := by
  simp only [latestIaps]
  split
  · simp
  · split
    · rw [List.length_take]
      exact Nat.min_le_left _ _
    · rw [List.length_take]
      exact Nat.min_le_left _ _

theorem descBy_latestIaps_of_timesOk {st : Store} {limit : Nat}
    (ht : timesOk "timeBought" (flattenNested "purchase_id" (iapQuery st)) = true) :
    DescBy "timeBought" (latestIaps st limit) := by
  simp only [latestIaps]
  split
  · exact List.Pairwise.nil
  · split
    · rename_i x l hsm
      exact List.Pairwise.sublist (List.take_sublist _ _) (descBy_sortDescByE hsm)
    · rename_i x e hsm
      rw [sortDescByE, if_pos ht] at hsm
      cases hsm

theorem timeOf_enrichEvent {f : String} (hf : f ∉ playerFieldKeys) (st : Store)
    (r : PyDict) : timeOf f (enrichEvent st r) = timeOf f r := by
  unfold timeOf
  rw [lookup_enrichEvent_of_not_mem hf]

theorem descBy_map_enrich {f : String} (hf : f ∉ playerFieldKeys) (st : Store)
    {l : List PyDict} (h : DescBy f l) : DescBy f (l.map (enrichEvent st)) := by
  unfold DescBy at *
  rw [List.pairwise_map]
  exact h.imp (fun hab => by
    rw [timeOf_enrichEvent hf, timeOf_enrichEvent hf]
    exact hab)

theorem length_fetch_latest_players (st : Store) (limit : Nat) :
    (fetch_latest_players st limit).length ≤ limit := by
  rw [fetch_latest_players]
  split
  · rename_i x l hok
    exact le_trans (buildPlayers_ok_length hok) (length_limitToLast _ _)
  · simp

theorem ascBy_fetch_latest_players {st : Store} {limit : Nat}
    (hpt : PlayersTimed st.players) :
    AscBy "Install_time" (fetch_latest_players st limit) := by
  rw [fetch_latest_players]
  split
  · rename_i x l hok
    have hq' : (limitToLast (orderByChild st.players "Install_time") limit).Pairwise
        (fun e1 e2 => fbLe (childVal e1.2 "Install_time")
          (childVal e2.2 "Install_time") = true) :=
      List.Pairwise.sublist (List.drop_sublist _ _)
        (pairwise_orderByChild st.players "Install_time")
    have hq2 : (limitToLast (orderByChild st.players "Install_time") limit).Pairwise
        (fun e1 e2 => e1 ∈ st.players ∧ e2 ∈ st.players ∧
          fbLe (childVal e1.2 "Install_time") (childVal e2.2 "Install_time") = true) :=
      List.Pairwise.imp_of_mem
        (fun ha hb hr => ⟨mem_orderByChild (mem_limitToLast ha),
          mem_orderByChild (mem_limitToLast hb), hr⟩) hq'
    refine buildPlayers_pairwise hok hq2 ?_
    intro uid₁ r₁ p₁ uid₂ r₂ p₂ hS hn₁ hn₂
    obtain ⟨hm₁, hm₂, hle⟩ := hS
    obtain ⟨hnd₁, n₁, ht₁⟩ := hpt uid₁ r₁ hm₁
    obtain ⟨hnd₂, n₂, ht₂⟩ := hpt uid₂ r₂ hm₂
    simp only [childVal] at hle
    rw [ht₁, ht₂] at hle
    have hnum : n₁ ≤ n₂ := by simpa [fbLe] using hle
    have e₁ : timeOf "Install_time" (buildRec uid₁ r₁ p₁) = n₁ := by
      rw [timeOf_buildRec hnd₁]
      unfold timeOf
      rw [ht₁]
    have e₂ : timeOf "Install_time" (buildRec uid₂ r₂ p₂) = n₂ := by
      rw [timeOf_buildRec hnd₂]
      unfold timeOf
      rw [ht₂]
    rw [e₁, e₂]
    exact hnum
  · exact List.Pairwise.nil

/-! ## Claim C1: lengths and result order of the fetch operations -/

/-- C1 counterexample: with installs at times 1 and 2, `fetch_latest_players`
returns the records in ascending order, so adjacent descending order fails. -/
theorem claim_C1_counterexample :
    ¬ DescBy "Install_time" (fetch_latest_players cexStoreC1 2) := by
  intro h
  rw [show fetch_latest_players cexStoreC1 2 =
      [[("uid", JVal.str "a"), ("Install_time", JVal.num 1),
        ("Platform", JVal.str "Android")],
       [("uid", JVal.str "b"), ("Install_time", JVal.num 2),
        ("Platform", JVal.str "Android")]] from rfl] at h
  unfold DescBy at h
  have h2 := (List.pairwise_cons.mp h).1 _ (List.mem_cons_self _ _)
  exact absurd h2 (by decide)

/-- C1 (amended): every fetch with limit N returns at most N records; the
five operations that sort locally return descending order of their defining
timestamp field (the IAP pipeline provided its sort does not fall into the
inner exception handler, i.e. the flattened timestamps are numeric); but
`fetch_latest_players`, which performs no local sort, hands back the query
result in *ascending* `Install_time` order (for stores of well-formed player
records). -/
theorem claim_C1_fetch_order (st : Store) (limit : Nat) (src : String) :
    (fetch_latest_players st limit).length ≤ limit ∧
    (fetch_latest_android_players st limit).length ≤ limit ∧
    (fetch_latest_ios_players st limit).length ≤ limit ∧
    (fetch_players_by_source st src limit).length ≤ limit ∧
    (fetch_latest_conversions_with_player_data st limit).length ≤ limit ∧
    (fetch_latest_iap_with_player_data st limit).length ≤ limit ∧
    DescBy "Install_time" (fetch_latest_android_players st limit) ∧
    DescBy "Install_time" (fetch_latest_ios_players st limit) ∧
    DescBy "Install_time" (fetch_players_by_source st src limit) ∧
    DescBy "time" (fetch_latest_conversions_with_player_data st limit) ∧
    (timesOk "timeBought" (flattenNested "purchase_id" (iapQuery st)) = true →
      DescBy "timeBought" (fetch_latest_iap_with_player_data st limit)) ∧
    (PlayersTimed st.players → AscBy "Install_time" (fetch_latest_players st limit)) := by
  refine ⟨length_fetch_latest_players st limit,
    length_fetchPlayersFiltered st _ _ limit 2,
    length_fetchPlayersFiltered st _ _ limit 2,
    length_fetchPlayersFiltered st _ _ limit 2,
    ?_, ?_,
    descBy_fetchPlayersFiltered st _ _ limit 2,
    descBy_fetchPlayersFiltered st _ _ limit 2,
    descBy_fetchPlayersFiltered st _ _ limit 2,
    ?_, ?_, ?_⟩
  · rw [fetch_latest_conversions_with_player_data, List.length_map]
    exact length_latestConversions st limit
  · rw [fetch_latest_iap_with_player_data, List.length_map]
    exact length_latestIaps st limit
  · rw [fetch_latest_conversions_with_player_data]
    exact descBy_map_enrich (by decide) st (descBy_latestConversions st limit)
  · intro ht
    rw [fetch_latest_iap_with_player_data]
    exact descBy_map_enrich (by decide) st (descBy_latestIaps_of_timesOk ht)
  · exact fun hpt => ascBy_fetch_latest_players hpt

/-- Witness for C1 (amended): the conditional order conclusions hold at the
concrete store. -/
theorem claim_C1_witness :
    DescBy "timeBought" (fetch_latest_iap_with_player_data wStore 10) ∧
    AscBy "Install_time" (fetch_latest_players wStore 10) := by
  have hpt : PlayersTimed wStore.players := by
    intro k r hmem
    simp only [wStore, List.mem_cons, List.not_mem_nil, or_false] at hmem
    rcases hmem with h | h <;> cases h <;> exact ⟨by decide, _, rfl⟩
  exact ⟨(claim_C1_fetch_order wStore 10 "").2.2.2.2.2.2.2.2.2.2.1 (by rfl),
         (claim_C1_fetch_order wStore 10 "").2.2.2.2.2.2.2.2.2.2.2 hpt⟩
